import Mathlib

/-!
Verification of the BGI18 interval-FSS evaluation core
(`funcs/src/interval/bgi18/data_structures.rs`).

The embedding models:
* `Seed` as a byte buffer (`List Nat`), matching the trait's
  `as_ref`/`as_mut` byte views with byte-wise XOR;
* the field `F` as an arbitrary type with the instances the code uses
  (`Add`, `Zero` for `Default`);
* the PRG as an abstract state-passing interface `PrgOps` supplying
  `from_seed`, `fill_bytes` (which overwrites a whole seed buffer),
  `gen_bool` (an unbiased coin flip, `gen_bool(0.5)` in the source) and
  `rand` (the field's sample-from-PRG procedure);
* Rust's in-place mutation through `&mut` borrows by explicit state
  passing: a function that borrows a value returns its post-state, so
  frame properties are statable as "the returned borrow equals the
  input".
-/

namespace BGI18

/-- Modelled from the spec: `Pair<T>` (from the crate root, not in the
shown excerpt) is exactly two values of type `T` addressed by a boolean
index, slot 0 = `false`, slot 1 = `true`. -/
structure Pair (α : Type) where
  fst : α
  snd : α
deriving Repr, DecidableEq

/-- Boolean indexing `p[b]` on a `Pair` (slot 0 at `false`, slot 1 at `true`). -/
def Pair.get {α : Type} (p : Pair α) : Bool → α
  | false => p.fst
  | true => p.snd

/-- In-place update `p[b] = v` on a `Pair`. -/
def Pair.set {α : Type} (p : Pair α) : Bool → α → Pair α
  | false, v => { p with fst := v }
  | true, v => { p with snd := v }

/-- The seed type `S : Seed`: a byte buffer, viewed through
`as_ref`/`as_mut` as a sequence of bytes. -/
abbrev Seed := List Nat

/-- A node in the DIF tree: a seed, control-bit and field element for
each of the two child nodes (`Node<F, S>` in the source). -/
structure Node (F : Type) where
  seeds : Pair Seed
  control_bits : Pair Bool
  elems : Pair F
deriving Repr, DecidableEq

/-- `CodeWord`s have the same structure as a `Node` (a type alias in the
source). -/
abbrev CodeWord (F : Type) := Node F

/-- The `#[derive(Default)]` value of a `Node`/`CodeWord`: all-zero seed
buffers of the fixed seed byte-length `n`, `false` control bits, and the
field's default (additive identity) elements. -/
def defaultCodeWord (F : Type) [Zero F] (n : Nat) : CodeWord F :=
  { seeds := ⟨List.replicate n 0, List.replicate n 0⟩
    control_bits := ⟨false, false⟩
    elems := ⟨0, 0⟩ }

/-- A succinct representation of the shared function (`Key<F, S>`): tree
depth, root node and the per-level shared codeword pairs (the `Rc`
shared-ownership wrapper is dropped; sharing is a memory optimization). -/
structure Key (F : Type) where
  log_domain : Nat
  root : Node F
  codewords : List (Pair (CodeWord F))

/-- `MaskedNode<PRG, F, S>` without its `PhantomData` marker: the raw
pseudo-random expansion of a seed into both children's masked values. -/
structure MaskedNode (F : Type) where
  masked_seeds : Pair Seed
  masked_control_bits : Pair Bool
  masked_elems : Pair F
deriving Repr, DecidableEq

/-- An intermediate node in the DIF tree during evaluation: the selected
child's seed and control-bit (`IntermediateNode<S>`). -/
structure IntermediateNode where
  seed : Seed
  control_bit : Bool
deriving Repr, DecidableEq

/-- The abstract PRG interface the core consumes, in state-passing
style over a PRG state `σ`: `PRG::from_seed`, `PRG::fill_bytes` (which
overwrites an entire seed buffer and is therefore modelled as producing
a fresh buffer), `prg.gen_bool(0.5)` and `F::rand(&mut prg)`. -/
structure PrgOps (σ F : Type) where
  from_seed : Seed → σ
  fill_bytes : σ → Seed × σ
  gen_bool : σ → Bool × σ
  rand : σ → F × σ

/-- `MaskedNode::sample_masked_node`: instantiate the PRG from the
node's seed, then draw, from that single stream: both masked seeds
(index 0 then 1), both masked control-bits, then both masked field
elements. -/
def sample_masked_node {σ F : Type} (ops : PrgOps σ F)
    (node : IntermediateNode) : MaskedNode F :=
  let prg := ops.from_seed node.seed
  -- Sample masked seeds.
  let r0 := ops.fill_bytes prg
  let r1 := ops.fill_bytes r0.2
  -- Sample masked control-bits.
  let b0 := ops.gen_bool r1.2
  let b1 := ops.gen_bool b0.2
  -- Sample masked field elems.
  let e0 := ops.rand b1.2
  let e1 := ops.rand e0.2
  { masked_seeds := ⟨r0.1, r1.1⟩
    masked_control_bits := ⟨b0.1, b1.1⟩
    masked_elems := ⟨e0.1, e1.1⟩ }

/-- The in-place XOR loop
`s.iter_mut().zip(c).for_each(|(s, cs)| *s ^= cs)`: each byte of the
first buffer is XORed with the corresponding byte of the second; bytes
of the first buffer beyond the second's length are left unchanged. -/
def xorAssign : List Nat → List Nat → List Nat
  | s, [] => s
  | [], _ => []
  | a :: s, c :: cs => (a ^^^ c) :: xorAssign s cs

/-- `IntermediateNode::new`: select the child `(seed, control_bit)` at
the given boolean index from a `Node`'s pairs. -/
def IntermediateNode.new {F : Type} (bit : Bool) (node : Node F) :
    IntermediateNode :=
  { seed := node.seeds.get bit
    control_bit := node.control_bits.get bit }

/-- The outputs of `unmask_node`: the returned `IntermediateNode`, plus
the post-states of the two borrows the Rust function holds — the
`&CodeWord` and the `Option<&mut F>` accumulator. -/
structure UnmaskOut (F : Type) where
  node : IntermediateNode
  codeword : CodeWord F
  accumulator : Option F
deriving Repr, DecidableEq

/-- `IntermediateNode::unmask_node`: XOR the masked node with the
codeword in place at index `bit` (seed byte-wise, control-bit), update
the accumulator when one is provided, and return the corrected
`(seed, control_bit)` at index `bit`. -/
def unmask_node {F : Type} [Add F] (bit : Bool) (masked_node : MaskedNode F)
    (codeword : CodeWord F) (accumulator : Option F) : UnmaskOut F :=
  -- XOR `masked_node` with `codeword` in-place
  let masked_node := { masked_node with
    masked_seeds := masked_node.masked_seeds.set bit
      (xorAssign (masked_node.masked_seeds.get bit) (codeword.seeds.get bit)) }
  let masked_node := { masked_node with
    masked_control_bits := masked_node.masked_control_bits.set bit
      (xor (masked_node.masked_control_bits.get bit)
        (codeword.control_bits.get bit)) }
  -- If an accumulator is provided, update it
  let accumulator := match accumulator with
    | some acc =>
        some (acc + (masked_node.masked_elems.get bit + codeword.elems.get bit))
    | none => none
  { node := { seed := masked_node.masked_seeds.get bit
              control_bit := masked_node.masked_control_bits.get bit }
    codeword := codeword
    accumulator := accumulator }

/-- Modelled from the spec: the error taxonomy of §7 — the typed failure
distinguishing a malformed key from an invalid input. -/
inductive EvalError where
  | malformedKey
  | invalidInput
deriving Repr, DecidableEq

/-- Modelled from the spec: the body of the §4.3 evaluation walk over
one level per list entry — sample a `MaskedNode` from the current seed,
select the level's codeword by the current control bit, unmask at the
level's path bit folding into the accumulator.  The second component of
the result counts PRG expansion (`sample_masked_node`) calls. -/
def evalLoop {σ F : Type} [Add F] (ops : PrgOps σ F)
    (cws : List (Pair (CodeWord F))) (bits : List Bool)
    (node : IntermediateNode) (acc : F) (calls : Nat) : F × Nat :=
  match cws, bits with
  | cwPair :: cws, b :: bits =>
      let masked := sample_masked_node ops node
      let cw := cwPair.get node.control_bit
      let out := unmask_node b masked cw (some acc)
      evalLoop ops cws bits out.node (out.accumulator.getD acc) (calls + 1)
  | _, _ => (acc, calls)

/-- Modelled from the spec: the path-bit schedule of §4.3 — the bits of
`x`, most-significant-first over a `log_domain`-bit domain. -/
def pathBits (log_domain x : Nat) : List Bool :=
  (List.range log_domain).map (fun i => x.testBit (log_domain - 1 - i))

/-- Modelled from the spec: the §4.3 evaluation driver (not in the shown
excerpt).  It rejects a malformed key (`codewords.len() != log_domain`,
§7: fatal, surfaced immediately, before any PRG call), then an input not
representable in `log_domain` bits, then walks the tree from the root
child selected by the party index, over the bits of `x`
most-significant-first, starting from the field's additive identity.
The second component counts PRG expansion calls. -/
def evaluate {σ F : Type} [Add F] [Zero F] (ops : PrgOps σ F) (party : Bool)
    (key : Key F) (x : Nat) : Except EvalError F × Nat :=
  if key.codewords.length ≠ key.log_domain then (.error .malformedKey, 0)
  else if 2 ^ key.log_domain ≤ x then (.error .invalidInput, 0)
  else
    let node := IntermediateNode.new party key.root
    let r := evalLoop ops key.codewords (pathBits key.log_domain x) node 0 0
    (.ok r.1, r.2)

/-- Modelled from the spec: the driver viewed through its borrow of the
key — it returns the post-state of the `&Key` borrow, which the spec
fixes as never mutated ("held immutably for the lifetime of all
evaluations"). -/
def evaluate_st {σ F : Type} [Add F] [Zero F] (ops : PrgOps σ F)
    (party : Bool) (key : Key F) (x : Nat) :
    (Except EvalError F × Nat) × Key F :=
  (evaluate ops party key x, key)

/-! ### Helper lemmas -/

theorem Pair.get_set_same {α : Type} (p : Pair α) (b : Bool) (v : α) :
    (p.set b v).get b = v := by
  cases b <;> rfl

theorem Pair.get_set_other {α : Type} (p : Pair α) (b b' : Bool) (v : α)
    (h : b' ≠ b) : (p.set b v).get b' = p.get b' := by
  cases b <;> cases b' <;> simp_all [Pair.set, Pair.get]

theorem xorAssign_zipWith (s c : List Nat) (h : s.length ≤ c.length) :
    xorAssign s c = List.zipWith Nat.xor s c := by
  induction s generalizing c with
  | nil => cases c <;> rfl
  | cons a s ih =>
      cases c with
      | nil => simp at h
      | cons b c =>
          simp only [List.length_cons, Nat.succ_le_succ_iff] at h
          simp [xorAssign, List.zipWith, ih c h]
          rfl

theorem xorAssign_replicate_zero (s : List Nat) (n : Nat) :
    xorAssign s (List.replicate n 0) = s := by
  induction s generalizing n with
  | nil => cases n <;> rfl
  | cons a s ih =>
      cases n with
      | zero => rfl
      | succ n => simp [List.replicate, xorAssign, ih n]

theorem evalLoop_calls {σ F : Type} [Add F] (ops : PrgOps σ F)
    (cws : List (Pair (CodeWord F))) (bits : List Bool)
    (node : IntermediateNode) (acc : F) (calls : Nat) :
    (evalLoop ops cws bits node acc calls).2
      = calls + min cws.length bits.length := by
  induction cws generalizing bits node acc calls with
  | nil => cases bits <;> simp [evalLoop]
  | cons cw cws ih =>
      cases bits with
      | nil => simp [evalLoop]
      | cons b bits =>
          simp only [evalLoop, ih, List.length_cons]
          omega

/-! ### Concrete instances used by the witnesses -/

/-- A toy deterministic PRG instance over a `Nat` counter state with
2-byte seeds and `Int` as the field, used only to exercise the generic
theorems at concrete inputs. -/
def natPrg : PrgOps Nat Int :=
  { from_seed := fun s => s.foldl (fun a b => 256 * a + b) 1
    fill_bytes := fun n => ([n % 256, (n + 1) % 256], n + 2)
    gen_bool := fun n => (n % 2 == 1, n + 1)
    rand := fun n => ((n : Int), n + 1) }

/-- A concrete root node over `Int` with 2-byte seeds. -/
def rootEx : Node Int :=
  { seeds := ⟨[1, 2], [3, 4]⟩
    control_bits := ⟨false, true⟩
    elems := ⟨5, 6⟩ }

/-- A concrete codeword over `Int` with 2-byte seeds. -/
def cwEx : CodeWord Int :=
  { seeds := ⟨[7, 8], [9, 10]⟩
    control_bits := ⟨true, true⟩
    elems := ⟨11, 12⟩ }

/-- A malformed key: depth 1 but an empty codeword list. -/
def badKey : Key Int :=
  { log_domain := 1, root := rootEx, codewords := [] }

/-- A well-formed key of depth 2 with two codeword pairs. -/
def goodKey : Key Int :=
  { log_domain := 2, root := rootEx
    codewords := [⟨cwEx, cwEx⟩, ⟨cwEx, defaultCodeWord Int 2⟩] }

/-! ### Claim theorems -/

/-- C1: `unmask_node(b, m, c, acc)` returns an `IntermediateNode` whose
seed is the byte-wise XOR of `m.masked_seeds[b]` with `c.seeds[b]` and
whose control bit is `m.masked_control_bits[b] XOR c.control_bits[b]`;
when an accumulator is supplied its new value is the old value plus
`m.masked_elems[b] + c.elems[b]`, and when none is supplied no field
addition is performed (captured by `Option.map`).  The hypothesis
records that the two seed buffers have the fixed common seed length. -/
theorem unmask_node_spec_c1 {F : Type} [Add F] (bit : Bool)
    (m : MaskedNode F) (c : CodeWord F) (acc : Option F)
    (h : (m.masked_seeds.get bit).length = (c.seeds.get bit).length) :
    (unmask_node bit m c acc).node.seed
        = List.zipWith Nat.xor (m.masked_seeds.get bit) (c.seeds.get bit)
      ∧ (unmask_node bit m c acc).node.control_bit
        = xor (m.masked_control_bits.get bit) (c.control_bits.get bit)
      ∧ (unmask_node bit m c acc).accumulator
        = acc.map (fun a => a + (m.masked_elems.get bit + c.elems.get bit)) := by
  refine ⟨?_, ?_, ?_⟩
  · simp [unmask_node, Pair.get_set_same, xorAssign_zipWith _ _ (Nat.le_of_eq h)]
  · simp [unmask_node, Pair.get_set_same]
  · cases acc <;> simp [unmask_node]

/-- C1 witness: the theorem instantiated at a concrete masked node,
codeword and accumulator. -/
theorem unmask_node_spec_c1_witness :
    ((⟨⟨[1, 2], [3, 4]⟩, ⟨true, false⟩, ⟨(5 : Int), 6⟩⟩ :
        MaskedNode Int).masked_seeds.get true).length
      = (cwEx.seeds.get true).length
    ∧ ((unmask_node true ⟨⟨[1, 2], [3, 4]⟩, ⟨true, false⟩, ⟨(5 : Int), 6⟩⟩
          cwEx (some 7)).node.seed
        = List.zipWith Nat.xor
          ((⟨⟨[1, 2], [3, 4]⟩, ⟨true, false⟩, ⟨(5 : Int), 6⟩⟩ :
              MaskedNode Int).masked_seeds.get true)
          (cwEx.seeds.get true)
      ∧ (unmask_node true ⟨⟨[1, 2], [3, 4]⟩, ⟨true, false⟩, ⟨(5 : Int), 6⟩⟩
          cwEx (some 7)).node.control_bit
        = xor ((⟨⟨[1, 2], [3, 4]⟩, ⟨true, false⟩, ⟨(5 : Int), 6⟩⟩ :
              MaskedNode Int).masked_control_bits.get true)
          (cwEx.control_bits.get true)
      ∧ (unmask_node true ⟨⟨[1, 2], [3, 4]⟩, ⟨true, false⟩, ⟨(5 : Int), 6⟩⟩
          cwEx (some 7)).accumulator
        = (some (7 : Int)).map (fun a =>
            a + ((⟨⟨[1, 2], [3, 4]⟩, ⟨true, false⟩, ⟨(5 : Int), 6⟩⟩ :
                MaskedNode Int).masked_elems.get true + cwEx.elems.get true))) :=
  ⟨rfl, unmask_node_spec_c1 true _ cwEx (some 7) rfl⟩

/-- C2: `sample_masked_node` instantiates the PRG from the node's seed
once and draws, in this order from that single stream: child-0 seed,
child-1 seed, child-0 control bit, child-1 control bit, child-0 field
element, child-1 field element; each equation below pins one slot of the
returned `MaskedNode` to its exact position in the stream. -/
theorem sample_masked_node_draw_order {σ F : Type} (ops : PrgOps σ F)
    (node : IntermediateNode) :
    (sample_masked_node ops node).masked_seeds.get false
        = (ops.fill_bytes (ops.from_seed node.seed)).1
      ∧ (sample_masked_node ops node).masked_seeds.get true
        = (ops.fill_bytes (ops.fill_bytes (ops.from_seed node.seed)).2).1
      ∧ (sample_masked_node ops node).masked_control_bits.get false
        = (ops.gen_bool
            (ops.fill_bytes (ops.fill_bytes (ops.from_seed node.seed)).2).2).1
      ∧ (sample_masked_node ops node).masked_control_bits.get true
        = (ops.gen_bool (ops.gen_bool
            (ops.fill_bytes (ops.fill_bytes (ops.from_seed node.seed)).2).2).2).1
      ∧ (sample_masked_node ops node).masked_elems.get false
        = (ops.rand (ops.gen_bool (ops.gen_bool
            (ops.fill_bytes (ops.fill_bytes (ops.from_seed node.seed)).2).2).2).2).1
      ∧ (sample_masked_node ops node).masked_elems.get true
        = (ops.rand (ops.rand (ops.gen_bool (ops.gen_bool
            (ops.fill_bytes
              (ops.fill_bytes (ops.from_seed node.seed)).2).2).2).2).2).1 :=
  ⟨rfl, rfl, rfl, rfl, rfl, rfl⟩

/-- C3: `sample_masked_node` is a pure function of the input node's seed
alone — two nodes with equal seeds (control bits may differ) expand to
identical `MaskedNode`s in every slot. -/
theorem sample_masked_node_seed_only {σ F : Type} (ops : PrgOps σ F)
    (n1 n2 : IntermediateNode) (h : n1.seed = n2.seed) :
    sample_masked_node ops n1 = sample_masked_node ops n2 := by
  simp only [sample_masked_node, h]

/-- C3 witness: two nodes sharing a seed but with opposite control bits
expand identically under the concrete toy PRG. -/
theorem sample_masked_node_seed_only_witness :
    (⟨[1, 2], true⟩ : IntermediateNode).seed
        = (⟨[1, 2], false⟩ : IntermediateNode).seed
    ∧ sample_masked_node natPrg ⟨[1, 2], true⟩
        = sample_masked_node natPrg ⟨[1, 2], false⟩ :=
  ⟨rfl, sample_masked_node_seed_only natPrg ⟨[1, 2], true⟩ ⟨[1, 2], false⟩ rfl⟩

/-- C4: `IntermediateNode::new(bit, n)` is exactly the projection
`{ seed := n.seeds[bit], control_bit := n.control_bits[bit] }`; the
right-hand side mentions no other part of the node and no PRG. -/
theorem intermediate_node_new_projection {F : Type} (bit : Bool)
    (node : Node F) :
    IntermediateNode.new bit node
      = ⟨node.seeds.get bit, node.control_bits.get bit⟩ :=
  rfl

/-- C5: no evaluation-core operation mutates the codeword or the key:
the post-state of `unmask_node`'s codeword borrow equals its input, and
folding any number of evaluations over a key (each returning the
post-state of its key borrow) leaves the key identical. -/
theorem eval_core_no_mutation {σ F : Type} [Add F] [Zero F]
    (ops : PrgOps σ F) (party : Bool) :
    (∀ (bit : Bool) (m : MaskedNode F) (c : CodeWord F) (acc : Option F),
        (unmask_node bit m c acc).codeword = c)
    ∧ ∀ (key : Key F) (xs : List Nat),
        List.foldl (fun k x => (evaluate_st ops party k x).2) key xs = key := by
  refine ⟨fun bit m c acc => rfl, fun key xs => ?_⟩
  induction xs generalizing key with
  | nil => rfl
  | cons x xs ih => exact ih key

/-- C6: a key whose codeword sequence length differs from `log_domain`
is rejected with a malformed-key error, with zero PRG expansion calls
performed and no accumulator value produced. -/
theorem evaluate_malformed_key {σ F : Type} [Add F] [Zero F]
    (ops : PrgOps σ F) (party : Bool) (key : Key F) (x : Nat)
    (h : key.codewords.length ≠ key.log_domain) :
    evaluate ops party key x = (Except.error EvalError.malformedKey, 0) := by
  simp [evaluate, h]

/-- C6 witness: the malformed key of depth 1 with no codewords is
rejected before any PRG call. -/
theorem evaluate_malformed_key_witness :
    badKey.codewords.length ≠ badKey.log_domain
    ∧ evaluate natPrg false badKey 0
        = (Except.error EvalError.malformedKey, 0) :=
  ⟨by decide, evaluate_malformed_key natPrg false badKey 0 (by decide)⟩

/-- C7 counterexample: the claim quantifies over every key, but on a
malformed key an out-of-range input fails with the malformed-key error,
not the invalid-input error — the malformed-key check runs first. -/
theorem evaluate_oob_c7_counterexample :
    2 ^ badKey.log_domain ≤ 5
    ∧ (evaluate natPrg false badKey 5).1
        ≠ Except.error EvalError.invalidInput := by
  constructor
  · decide
  · intro h
    simp [evaluate, badKey] at h

/-- C7 (amended to well-formed keys): for every key whose codeword
sequence length equals `log_domain`, evaluation fails with the
invalid-input error exactly when `x` is not representable in
`log_domain` bits — an out-of-range `x` is rejected rather than
truncated or wrapped, and a representable `x` never raises it. -/
theorem evaluate_input_range {σ F : Type} [Add F] [Zero F]
    (ops : PrgOps σ F) (party : Bool) (key : Key F) (x : Nat)
    (hlen : key.codewords.length = key.log_domain) :
    ((evaluate ops party key x).1 = Except.error EvalError.invalidInput
      ↔ 2 ^ key.log_domain ≤ x) := by
  by_cases hx : 2 ^ key.log_domain ≤ x <;> simp [evaluate, hlen, hx]

/-- C7 witness: the amended theorem at the well-formed depth-2 key and
the out-of-range input 7. -/
theorem evaluate_input_range_witness :
    goodKey.codewords.length = goodKey.log_domain
    ∧ ((evaluate natPrg false goodKey 7).1
          = Except.error EvalError.invalidInput
        ↔ 2 ^ goodKey.log_domain ≤ 7) :=
  ⟨rfl, evaluate_input_range natPrg false goodKey 7 rfl⟩

/-- C8: on a well-formed key and an in-domain input, evaluation returns
a value (no error) and performs exactly `log_domain` PRG expansion calls
— one per loop level — so the work count is `key.log_domain` for every
in-domain `x`, uniformly. -/
theorem evaluate_uniform_work {σ F : Type} [Add F] [Zero F]
    (ops : PrgOps σ F) (party : Bool) (key : Key F) (x : Nat)
    (hlen : key.codewords.length = key.log_domain)
    (hx : x < 2 ^ key.log_domain) :
    evaluate ops party key x
      = (Except.ok (evalLoop ops key.codewords (pathBits key.log_domain x)
            (IntermediateNode.new party key.root) 0 0).1,
          key.log_domain) := by
  have hnotle : ¬ 2 ^ key.log_domain ≤ x := Nat.not_le.mpr hx
  have hbits : (pathBits key.log_domain x).length = key.log_domain := by
    simp [pathBits]
  simp only [evaluate, hlen, ne_eq, not_true_eq_false, if_false, hnotle,
    ite_false]
  have := evalLoop_calls ops key.codewords (pathBits key.log_domain x)
    (IntermediateNode.new party key.root) 0 0
  rw [Prod.ext_iff]
  exact ⟨rfl, by simp [this, hlen, hbits]⟩

/-- C8 witness: the depth-2 key evaluated at the in-domain input 2
returns a value after exactly 2 PRG expansion calls. -/
theorem evaluate_uniform_work_witness :
    goodKey.codewords.length = goodKey.log_domain
    ∧ 2 < 2 ^ goodKey.log_domain
    ∧ evaluate natPrg false goodKey 2
        = (Except.ok (evalLoop natPrg goodKey.codewords
              (pathBits goodKey.log_domain 2)
              (IntermediateNode.new false goodKey.root) 0 0).1,
            goodKey.log_domain) :=
  ⟨rfl, by decide,
    evaluate_uniform_work natPrg false goodKey 2 rfl (by decide)⟩

/-- C9: unmasking with the all-default codeword is the identity
selection — the returned `IntermediateNode` is exactly the masked seed
and masked control bit at index `b`, and no accumulator value is
produced, for every default seed byte-length `n`. -/
theorem unmask_default_identity {F : Type} [Add F] [Zero F] (b : Bool)
    (m : MaskedNode F) (n : Nat) :
    (unmask_node b m (defaultCodeWord F n) none).node
        = ⟨m.masked_seeds.get b, m.masked_control_bits.get b⟩
    ∧ (unmask_node b m (defaultCodeWord F n) none).accumulator = none := by
  refine ⟨?_, rfl⟩
  cases b <;>
    simp [unmask_node, defaultCodeWord, Pair.get, Pair.set,
      xorAssign_replicate_zero]

/-- C10: the `IntermediateNode` returned by `unmask_node` depends only
on the index-`b` seed and control-bit slots of the masked node and the
codeword; the opposite slots, all field elements, and the accumulator
argument may change arbitrarily without affecting it. -/
theorem unmask_node_slot_noninterference {F : Type} [Add F] (b : Bool)
    (m m' : MaskedNode F) (c c' : CodeWord F) (acc acc' : Option F)
    (h1 : m.masked_seeds.get b = m'.masked_seeds.get b)
    (h2 : m.masked_control_bits.get b = m'.masked_control_bits.get b)
    (h3 : c.seeds.get b = c'.seeds.get b)
    (h4 : c.control_bits.get b = c'.control_bits.get b) :
    (unmask_node b m c acc).node = (unmask_node b m' c' acc').node := by
  simp [unmask_node, Pair.get_set_same, h1, h2, h3, h4]

/-- C10 witness: two masked nodes and codewords agreeing only on the
index-`true` seed/control slots (the other slots and all field elements
differ, and one side has an accumulator) yield the same node. -/
theorem unmask_node_slot_noninterference_witness :
    (⟨⟨[1, 2], [3, 4]⟩, ⟨true, false⟩, ⟨(5 : Int), 6⟩⟩ :
        MaskedNode Int).masked_seeds.get true
      = (⟨⟨[9, 9], [3, 4]⟩, ⟨false, false⟩, ⟨(50 : Int), 60⟩⟩ :
        MaskedNode Int).masked_seeds.get true
    ∧ (⟨⟨[1, 2], [3, 4]⟩, ⟨true, false⟩, ⟨(5 : Int), 6⟩⟩ :
        MaskedNode Int).masked_control_bits.get true
      = (⟨⟨[9, 9], [3, 4]⟩, ⟨false, false⟩, ⟨(50 : Int), 60⟩⟩ :
        MaskedNode Int).masked_control_bits.get true
    ∧ (cwEx.seeds.get true
      = (⟨⟨[0, 0], [9, 10]⟩, ⟨false, true⟩, ⟨(0 : Int), 0⟩⟩ :
          CodeWord Int).seeds.get true)
    ∧ (cwEx.control_bits.get true
      = (⟨⟨[0, 0], [9, 10]⟩, ⟨false, true⟩, ⟨(0 : Int), 0⟩⟩ :
          CodeWord Int).control_bits.get true)
    ∧ (unmask_node true
          ⟨⟨[1, 2], [3, 4]⟩, ⟨true, false⟩, ⟨(5 : Int), 6⟩⟩ cwEx
          (some 7)).node
      = (unmask_node true
          ⟨⟨[9, 9], [3, 4]⟩, ⟨false, false⟩, ⟨(50 : Int), 60⟩⟩
          ⟨⟨[0, 0], [9, 10]⟩, ⟨false, true⟩, ⟨(0 : Int), 0⟩⟩
          none).node :=
  ⟨rfl, rfl, rfl, rfl,
    unmask_node_slot_noninterference true _ _ cwEx _ (some 7) none
      rfl rfl rfl rfl⟩

end BGI18
